import Mathlib

/-!
# Comment threading and collaboration access — verification development

Shallow embedding of the comment-threading / collaboration-access component of the
myideacopliot backend (`app/services/share.py`, `app/services/comment.py`,
`app/routers/comment.py`, row shapes from `app/models/*.py`).

Modelling conventions:
* Opaque UUID identifiers and timestamps are `Nat` (the code only generates,
  compares and equates them).
* A database table is a `List` of row structures; the external datastore is a
  `Store` holding the tables this component touches.  Supabase query-builder
  chains (`.table(..).select(..).eq(..)...execute()`) become `List.filter`.
* The datastore's `.order("created_at", desc=False)` clause is modelled as a
  stable sort by `created_at` (`orderByCreatedAt`): rows with equal
  `created_at` keep their table order, which mirrors the fact that the SQL
  order clause fixes no tie order of its own.
* Fallible service operations return `Except ApiError _`; the error
  constructors mirror the exception classes of `app/utils/exceptions.py` and
  their HTTP mapping in the routers.  (`ForbiddenError`, raised throughout the
  services and mapped to 403 in every router handler, plays the role of the
  403 `AuthorizationError` of `app/utils/exceptions.py`.)
* The datastore assigns `id` / `created_at` / `updated_at` on insert; those
  server-assigned values are explicit parameters of the insert operations.
-/

deriving instance DecidableEq for Except

/-- Row of the `ideas` table — the fields read by the access check
(`share.py` line 209). -/
structure Idea where
  id : Nat
  user_id : Nat
deriving Repr, DecidableEq

/-- Row of the `idea_shares` table, after `app/models/share.py`. -/
structure IdeaShare where
  id : Nat
  idea_id : Nat
  owner_id : Nat
  shared_with_id : Nat
  role : String
  shared_at : Nat
  expires_at : Option Nat
  is_active : Bool
deriving Repr, DecidableEq

/-- Row of the `features` table — the fields read by
`CommentService.create_feature_comment` (`comment.py` line 86). -/
structure Feature where
  id : Nat
  idea_id : Nat
deriving Repr, DecidableEq

/-- Row of the `comments` table, after `app/models/comment.py`.
Exactly one of `idea_id` / `feature_id` is set in rows the service creates. -/
structure Comment where
  id : Nat
  user_id : Nat
  idea_id : Option Nat := none
  feature_id : Option Nat := none
  parent_comment_id : Option Nat := none
  content : String := ""
  is_ai_generated : Bool := false
  created_at : Nat := 0
  updated_at : Nat := 0
deriving Repr, DecidableEq

/-- The external datastore: the tables touched by the component. -/
structure Store where
  ideas : List Idea := []
  shares : List IdeaShare := []
  features : List Feature := []
  comments : List Comment := []
deriving Repr, DecidableEq

/-- Error taxonomy of `app/utils/exceptions.py` as raised by the comment and
share services (authentication is handled upstream of this component). -/
inductive ApiError where
  | forbidden
  | notFound
  | validation
deriving Repr, DecidableEq

/-- HTTP status each error is surfaced as by the handlers in
`app/routers/comment.py` (403 / 404 / 400). -/
def ApiError.status : ApiError → Nat
  | .forbidden => 403
  | .notFound => 404
  | .validation => 400

/-! ## Access gate — `ShareService.check_idea_access` (`share.py` 196-224) -/

/-- The ownership lookup: `table("ideas").select("*").eq("id", idea_id)
.eq("user_id", user_id)` (`share.py` line 209). -/
def ideaOwnerRows (db : Store) (ideaId userId : Nat) : List Idea :=
  db.ideas.filter fun i => i.id == ideaId && i.user_id == userId

/-- The share lookup: `table("idea_shares").select("*").eq("idea_id", idea_id)
.eq("shared_with_id", user_id).eq("is_active", True)` (`share.py` line 215).
The chain filters on `is_active` only — it places no condition on
`expires_at`. -/
def activeShareRows (db : Store) (ideaId userId : Nat) : List IdeaShare :=
  db.shares.filter fun s =>
    s.idea_id == ideaId && s.shared_with_id == userId && s.is_active

/-- `ShareService.check_idea_access` (`share.py` 196-224), fault-free path:
owner → `(True, "owner")`; otherwise first active share → `(True, role)`;
otherwise `(False, None)`. -/
def check_idea_access (db : Store) (ideaId userId : Nat) : Bool × Option String :=
  if ideaOwnerRows db ideaId userId ≠ [] then
    (true, some "owner")
  else
    match activeShareRows db ideaId userId with
    | [] => (false, none)
    | s :: _ => (true, some s.role)

/-- `ShareService.check_idea_access` with explicit fault injection for the two
store lookups.  The whole body sits in a `try` whose `except` clause logs and
returns `(False, None)` (`share.py` 222-224), so a lookup fault is never
re-raised: every branch of the model is `.ok`.  `ideaFault` (resp.
`shareFault`) means the ideas (resp. shares) query raises. -/
def check_idea_access_withFaults (db : Store) (ideaFault shareFault : Bool)
    (ideaId userId : Nat) : Except String (Bool × Option String) :=
  if ideaFault then
    .ok (false, none)
  else if ideaOwnerRows db ideaId userId ≠ [] then
    .ok (true, some "owner")
  else if shareFault then
    .ok (false, none)
  else
    match activeShareRows db ideaId userId with
    | [] => .ok (false, none)
    | s :: _ => .ok (true, some s.role)

/-- Rewrite every share's `expires_at` field, leaving everything else in the
store untouched. -/
def setShareExpiry (g : IdeaShare → Option Nat) (db : Store) : Store :=
  { db with shares := db.shares.map fun s => { s with expires_at := g s } }

/-- Drop the shares whose `is_active` flag is false, as if they had never been
stored. -/
def dropInactiveShares (db : Store) : Store :=
  { db with shares := db.shares.filter fun s => s.is_active }

/-- The spec's notion of an *active* share (spec §4.1): `is_active` is true AND
(`expires_at` unset OR in the future at evaluation time `now`).
This definition follows the spec's words; it is the refinement target the
source is compared against, not a translation of the source. -/
def shareActiveSpec (now : Nat) (s : IdeaShare) : Bool :=
  s.is_active &&
    match s.expires_at with
    | none => true
    | some t => decide (now < t)

/-- Claim C1 instantiated at one evaluation point: if the user does not own the
idea and every share for `(ideaId, userId)` is inactive in the spec's sense at
time `now`, the access check must answer `(false, none)` — an expired share
must behave like no share. -/
def expiredShareLikeNoShareAt (db : Store) (ideaId userId now : Nat) : Prop :=
  ideaOwnerRows db ideaId userId = [] →
  (∀ s ∈ db.shares, s.idea_id = ideaId → s.shared_with_id = userId →
    shareActiveSpec now s = false) →
  check_idea_access db ideaId userId = (false, none)

/-- Claim C6 instantiated: a fault in the first lookup must surface as an
error to the caller (`InternalError`), i.e. the result must not be a normal
return. -/
def faultSurfacedAt (db : Store) (ideaFault shareFault : Bool)
    (ideaId userId : Nat) : Prop :=
  (ideaFault || shareFault) = true →
  (check_idea_access_withFaults db ideaFault shareFault ideaId userId).isOk = false

/-! ## Comment service — create / update / soft-delete
(`CommentService`, `comment.py`) -/

/-- The author-filtered lookup used by update and soft-delete:
`table("comments").select("*").eq("id", comment_id).eq("user_id", user_id)`
(`comment.py` lines 208 and 249). -/
def authorRows (db : Store) (commentId userId : Nat) : List Comment :=
  db.comments.filter fun c => c.id == commentId && c.user_id == userId

/-- One row as rewritten by `table("comments").update({"content": x})
.eq("id", comment_id)`: the update dict carries only `content`, so every other
column keeps its stored value. -/
def setContentRow (commentId : Nat) (newContent : String) (c : Comment) : Comment :=
  if c.id == commentId then { c with content := newContent } else c

/-- `CommentService.create_idea_comment` (`comment.py` 18-69).  The access
check gates on `has_access` alone (line 33); the insert dict carries
`parent_comment_id` through untouched (lines 44-47).  `newId`/`now` are the
server-assigned id and timestamp.  (The best-effort author-email enrichment of
lines 55-59 decorates the response only and is elided.) -/
def create_idea_comment (db : Store) (ideaId userId : Nat) (content : String)
    (parentCommentId : Option Nat) (newId now : Nat) :
    Except ApiError (Store × Comment) :=
  let acc := check_idea_access db ideaId userId
  if !acc.1 then
    .error .forbidden
  else
    let c : Comment :=
      { id := newId, user_id := userId, idea_id := some ideaId,
        feature_id := none, parent_comment_id := parentCommentId,
        content := content, is_ai_generated := false,
        created_at := now, updated_at := now }
    .ok ({ db with comments := db.comments ++ [c] }, c)

/-- `CommentService.create_feature_comment` (`comment.py` 72-131): resolve the
feature's idea (line 86, `NotFound` if absent), gate on `has_access` for that
idea, insert with `feature_id` set and `parent_comment_id` passed through
(lines 106-107). -/
def create_feature_comment (db : Store) (featureId userId : Nat)
    (content : String) (parentCommentId : Option Nat) (newId now : Nat) :
    Except ApiError (Store × Comment) :=
  match db.features.filter (fun f => f.id == featureId) with
  | [] => .error .notFound
  | f :: _ =>
    let acc := check_idea_access db f.idea_id userId
    if !acc.1 then
      .error .forbidden
    else
      let c : Comment :=
        { id := newId, user_id := userId, idea_id := none,
          feature_id := some featureId, parent_comment_id := parentCommentId,
          content := content, is_ai_generated := false,
          created_at := now, updated_at := now }
      .ok ({ db with comments := db.comments ++ [c] }, c)

/-- `CommentService.update_comment` (`comment.py` 194-236): the author-filtered
lookup matching zero rows raises `ForbiddenError` (lines 210-211); otherwise
the content-only update runs, filtered by `id` alone (line 214), and the first
returned row is the response. -/
def update_comment (db : Store) (commentId userId : Nat) (newContent : String) :
    Except ApiError (Store × Comment) :=
  match authorRows db commentId userId with
  | [] => .error .forbidden
  | _ :: _ =>
    let newComments := db.comments.map (setContentRow commentId newContent)
    match newComments.filter (fun c => c.id == commentId) with
    | [] => .error .validation
    | c :: _ => .ok ({ db with comments := newComments }, c)

/-- `CommentService.delete_comment` (`comment.py` 239-261): same author-filter
gate (lines 251-252), then a content-only update writing the sentinel
`"[deleted]"` (line 255); the update's response is not inspected and nothing
else is written. -/
def delete_comment (db : Store) (commentId userId : Nat) : Except ApiError Store :=
  match authorRows db commentId userId with
  | [] => .error .forbidden
  | _ :: _ =>
    .ok { db with comments := db.comments.map (setContentRow commentId "[deleted]") }

/-! ## Thread builder — `CommentService.get_idea_comments` (`comment.py` 133-191)

The python builds, over the store-returned rows: a dict `id ↦ node` (insertion
order = row order), a `root_comments` list of the rows with no parent (row
order), then appends every row whose parent id is in the dict to that parent's
`replies` (dict order).  Because the nodes are shared mutable objects, each
root ends up carrying its full reply subtree, and `root_comments[offset:
offset+limit]` is returned.  Rows are unique by primary-key `id`.

The model rebuilds the same trees functionally: `childrenOf rows i` is the
final `replies` content (projected to rows) of the node with id `i`, and
`buildNode` rebuilds a node with a fuel argument bounding recursion depth
(`rows.length` steps suffice for any forest the attach pass can produce). -/

/-- The rows collected into `root_comments` (`comment.py` 175-176): those with
no `parent_comment_id`, in row order. -/
def rootsOf (rows : List Comment) : List Comment :=
  rows.filter fun c => c.parent_comment_id == none

/-- The rows the attach pass (`comment.py` 179-182) appends to the `replies`
of the node with id `i`, in order. -/
def childrenOf (rows : List Comment) (i : Nat) : List Comment :=
  rows.filter fun c => c.parent_comment_id == some i

/-- `CommentResponse` with its nested `replies`, the node shape the service
returns. -/
inductive CommentNode where
  | mk (comment : Comment) (replies : List CommentNode)

/-- The comment stored at a node. -/
def CommentNode.comment : CommentNode → Comment
  | .mk c _ => c

/-- The reply list of a node. -/
def CommentNode.replies : CommentNode → List CommentNode
  | .mk _ rs => rs

/-- Rebuild the node for comment `c` with its full reply subtree; `fuel`
bounds the depth explored. -/
def buildNode (rows : List Comment) : Nat → Comment → CommentNode
  | 0, c => .mk c []
  | fuel + 1, c => .mk c ((childrenOf rows c.id).map (buildNode rows fuel))

/-- The full root forest before pagination: every parentless row with its
complete reply subtree, in row order. -/
def fullForest (rows : List Comment) : List CommentNode :=
  (rootsOf rows).map (buildNode rows rows.length)

/-- The value `get_idea_comments` returns for the given store rows:
`root_comments[offset : offset + limit]` (`comment.py` line 185) applied to
the fully-attached root list.  `limit`/`offset` are `Nat` because the router
validates `limit ≥ 1` and `offset ≥ 0` before the service runs, and python's
`xs[o : o + l]` coincides with `(xs.drop o).take l` on that domain. -/
def buildForest (rows : List Comment) (limit offset : Nat) : List CommentNode :=
  ((fullForest rows).drop offset).take limit

/-- Stable insertion of a row into a list sorted by `created_at`: the row goes
before the first element whose `created_at` is not smaller, so equal
timestamps keep their original relative order. -/
def insertByCat (c : Comment) : List Comment → List Comment
  | [] => [c]
  | d :: ds =>
    if d.created_at < c.created_at then d :: insertByCat c ds else c :: d :: ds

/-- The datastore's `.order("created_at", desc=False)` (`comment.py` line 154)
modelled as a stable sort: rows sorted by `created_at` ascending, rows with
equal `created_at` in table order.  (The SQL order clause itself fixes no tie
order; stability is the modelling choice that makes the output a function of
the table state.) -/
def orderByCreatedAt : List Comment → List Comment
  | [] => []
  | c :: cs => insertByCat c (orderByCreatedAt cs)

/-- The rows `get_idea_comments` fetches for an idea: the `comments` table
filtered by `idea_id` and ordered by `created_at` (`comment.py` line 154). -/
def ideaCommentRows (db : Store) (ideaId : Nat) : List Comment :=
  orderByCreatedAt (db.comments.filter fun c => c.idea_id == some ideaId)

/-- `CommentService.get_idea_comments` (`comment.py` 133-191): access gate on
`has_access` (lines 149-151), fetch ordered rows, build the tree, paginate the
roots. -/
def get_idea_comments (db : Store) (ideaId userId : Nat) (limit offset : Nat) :
    Except ApiError (List CommentNode) :=
  let acc := check_idea_access db ideaId userId
  if !acc.1 then
    .error .forbidden
  else
    .ok (buildForest (ideaCommentRows db ideaId) limit offset)

/-- The root comments of a service read result (empty on error); used to state
ordering properties of the returned page. -/
def resultRoots (r : Except ApiError (List CommentNode)) : List Comment :=
  match r with
  | .ok forest => forest.map CommentNode.comment
  | .error _ => []

/-- The `total` field the router puts in the response body:
`len(comments)` over the returned page (`routers/comment.py` line 113);
0 stands for the error paths, which return no body. -/
def responseTotal (r : Except ApiError (List CommentNode)) : Nat :=
  match r with
  | .ok forest => forest.length
  | .error _ => 0

/-- The router's validation of the `limit` query parameter:
`Query(50, ge=1, le=100)` (`routers/comment.py` line 90).  A request whose
`limit` fails this predicate is rejected before the service runs. -/
def limitOk (l : Int) : Bool := 1 ≤ l && l ≤ 100

/-- The router's validation of the `offset` query parameter:
`Query(0, ge=0)` (`routers/comment.py` line 91). -/
def offsetOk (o : Int) : Bool := 0 ≤ o

/-! ## Claim predicates (the claims as stated, instantiated pointwise) and
concrete stores used to settle them -/

/-- Claim C2 instantiated: a user the gate classifies as `viewer` must have
comment creation rejected. -/
def viewerCreateRejectedAt (db : Store) (ideaId userId : Nat) (content : String)
    (parentCommentId : Option Nat) (newId now : Nat) : Prop :=
  (check_idea_access db ideaId userId).2 = some "viewer" →
  (create_idea_comment db ideaId userId content parentCommentId newId now).isOk = false

/-- Claim C4 instantiated: when the author-filtered lookup matches zero rows,
update and soft-delete must fail with `NotFound` (HTTP 404). -/
def zeroMatchNotFoundAt (db : Store) (commentId userId : Nat)
    (newContent : String) : Prop :=
  authorRows db commentId userId = [] →
  update_comment db commentId userId newContent = .error .notFound ∧
  delete_comment db commentId userId = .error .notFound

/-- No comment row with id `pid` belongs to idea `ideaId`'s thread (so `pid`
is a cross-thread or nonexistent parent for that thread). -/
def crossThreadParent (db : Store) (ideaId pid : Nat) : Prop :=
  ∀ c ∈ db.comments, c.id = pid → c.idea_id ≠ some ideaId

/-- Claim C5 instantiated: a create carrying a cross-thread (or nonexistent)
parent must never succeed. -/
def parentValidatedAt (db : Store) (ideaId userId : Nat) (content : String)
    (pid newId now : Nat) : Prop :=
  crossThreadParent db ideaId pid →
  (create_idea_comment db ideaId userId content (some pid) newId now).isOk = false

/-- A store with one idea owned by user 10. -/
def dbOwnerOnly : Store := { ideas := [⟨1, 10⟩] }

/-- Idea 1 owned by user 10; a share of idea 1 to user 20 with role `viewer`,
`is_active = true`, `expires_at = 5` — already expired at any `now ≥ 5`. -/
def dbExpiredShare : Store :=
  { ideas := [⟨1, 10⟩],
    shares := [⟨1, 1, 10, 20, "viewer", 0, some 5, true⟩] }

/-- Idea 1 owned by user 10; an unexpired active `viewer` share to user 20. -/
def dbViewerShare : Store :=
  { ideas := [⟨1, 10⟩],
    shares := [⟨2, 1, 10, 20, "viewer", 0, none, true⟩] }

/-- Two ideas of user 10; a comment (id 100) attached to idea 2 — a
cross-thread parent candidate for comments on idea 1. -/
def dbTwoIdeas : Store :=
  { ideas := [⟨1, 10⟩, ⟨2, 10⟩],
    comments := [{ id := 100, user_id := 10, idea_id := some 2,
                   content := "p", created_at := 1, updated_at := 1 }] }

/-- Idea 1 owned by user 10 with a thread of two roots (ids 1, 2) and one
reply (id 3) to root 1. -/
def dbThread : Store :=
  { ideas := [⟨1, 10⟩],
    comments :=
      [{ id := 1, user_id := 10, idea_id := some 1, content := "a",
         created_at := 1, updated_at := 1 },
       { id := 2, user_id := 10, idea_id := some 1, content := "b",
         created_at := 2, updated_at := 2 },
       { id := 3, user_id := 10, idea_id := some 1, parent_comment_id := some 1,
         content := "c", created_at := 3, updated_at := 3 }] }

/-! ## C1 — share expiry -/

/-- C1 (counterexample): in `dbExpiredShare` at `now = 10` the only share for
`(idea 1, user 20)` is expired, hence spec-inactive, yet
`check_idea_access` answers `(true, some "viewer")`: the expired share does
not behave like no share, refuting the claim. -/
theorem C1_counterexample : ¬ expiredShareLikeNoShareAt dbExpiredShare 1 20 10 := by
  unfold expiredShareLikeNoShareAt
  decide

/-- C1 (amended): `check_idea_access` decides share access from `is_active`
alone.  Rewriting every share's `expires_at` arbitrarily never changes the
result, and dropping the inactive shares never changes the result — so a
deactivated share behaves like no share, but an expired, still-active share
grants access at every evaluation time. -/
theorem C1_expiry_ignored_inactive_dropped (g : IdeaShare → Option Nat)
    (db : Store) (ideaId userId : Nat) :
    check_idea_access (setShareExpiry g db) ideaId userId =
      check_idea_access db ideaId userId ∧
    check_idea_access (dropInactiveShares db) ideaId userId =
      check_idea_access db ideaId userId := by
  constructor
  · have howner : ideaOwnerRows (setShareExpiry g db) ideaId userId =
        ideaOwnerRows db ideaId userId := rfl
    have hshare : activeShareRows (setShareExpiry g db) ideaId userId =
        (activeShareRows db ideaId userId).map
          (fun s => { s with expires_at := g s }) := by
      unfold activeShareRows setShareExpiry
      simp only [List.filter_map]
      rfl
    unfold check_idea_access
    rw [howner, hshare]
    cases activeShareRows db ideaId userId <;> simp
  · have howner : ideaOwnerRows (dropInactiveShares db) ideaId userId =
        ideaOwnerRows db ideaId userId := rfl
    have hshare : activeShareRows (dropInactiveShares db) ideaId userId =
        activeShareRows db ideaId userId := by
      unfold activeShareRows dropInactiveShares
      rw [List.filter_filter]
      congr 1
      funext s
      cases h : s.is_active <;> simp [h]
    unfold check_idea_access
    rw [howner, hshare]

/-! ## C2 — who may create a comment -/

/-- C2 (counterexample): user 20 holds an active, unexpired `viewer` share on
idea 1 in `dbViewerShare` — the gate answers `(true, some "viewer")` — and
their comment creation succeeds, refuting "only `owner` or `editor` may
create". -/
theorem C2_counterexample :
    ¬ viewerCreateRejectedAt dbViewerShare 1 20 "hi" none 100 50 := by
  unfold viewerCreateRejectedAt
  decide

/-- C2 (amended): creation and reading are both gated on `has_access` alone —
any role other than `none` (owner, editor, or viewer) may create a comment
and may read the thread; the role value is never consulted beyond
`has_access`. -/
theorem C2_create_read_gate_on_access (db : Store) (ideaId userId : Nat)
    (content : String) (parentCommentId : Option Nat)
    (newId now limit offset : Nat) :
    (create_idea_comment db ideaId userId content parentCommentId newId now).isOk =
      (check_idea_access db ideaId userId).1 ∧
    (get_idea_comments db ideaId userId limit offset).isOk =
      (check_idea_access db ideaId userId).1 := by
  unfold create_idea_comment get_idea_comments
  cases h : (check_idea_access db ideaId userId).1 <;> simp [h, Except.isOk, Except.toBool]

/-! ## C4 — zero-row author match on update / soft-delete -/

/-- C4 (counterexample): on the empty store the author-filtered lookup for
comment 1 / user 1 matches zero rows, and both operations fail with
`ForbiddenError` (HTTP 403), not `NotFound` (404), refuting the claim. -/
theorem C4_counterexample : ¬ zeroMatchNotFoundAt { } 1 1 "x" := by
  unfold zeroMatchNotFoundAt
  decide

/-- C4 (amended): a zero-row author-filtered match makes update and
soft-delete fail with `ForbiddenError`, surfaced as HTTP 403 by the router —
still one indistinguishable outcome for "doesn't exist" and "not yours", but
Forbidden/403, not NotFound/404. -/
theorem C4_zero_match_forbidden (db : Store) (commentId userId : Nat)
    (newContent : String) (h : authorRows db commentId userId = []) :
    update_comment db commentId userId newContent = .error .forbidden ∧
    delete_comment db commentId userId = .error .forbidden ∧
    ApiError.status .forbidden = 403 := by
  unfold update_comment delete_comment
  rw [h]
  exact ⟨rfl, rfl, rfl⟩

/-- C4 witness: the amended behaviour at the empty store. -/
theorem C4_zero_match_forbidden_witness :
    update_comment { } 1 1 "x" = .error .forbidden ∧
    delete_comment { } 1 1 = .error .forbidden ∧
    ApiError.status .forbidden = 403 :=
  C4_zero_match_forbidden { } 1 1 "x" (by decide)

/-! ## C5 — parent-thread validation on create -/

/-- C5 (counterexample): in `dbTwoIdeas`, comment 100 belongs to idea 2, so it
is a cross-thread parent for idea 1; yet owner 10's create on idea 1 with
`parent_comment_id = 100` succeeds — the service never verifies the parent,
refuting the claim. -/
theorem C5_counterexample : ¬ parentValidatedAt dbTwoIdeas 1 10 "reply" 100 101 9 := by
  unfold parentValidatedAt crossThreadParent
  decide

/-- C5 (amended): the create paths perform no parent verification at all —
`parent_comment_id` is passed through to the insert, and whether creation
succeeds is independent of the parent value (cross-thread and nonexistent
parents included). -/
theorem C5_parent_never_validated (db : Store) (ideaId featureId userId : Nat)
    (content : String) (p₁ p₂ : Option Nat) (newId now : Nat) :
    (create_idea_comment db ideaId userId content p₁ newId now).isOk =
      (create_idea_comment db ideaId userId content p₂ newId now).isOk ∧
    (create_feature_comment db featureId userId content p₁ newId now).isOk =
      (create_feature_comment db featureId userId content p₂ newId now).isOk := by
  constructor
  · unfold create_idea_comment
    cases h : (check_idea_access db ideaId userId).1 <;> simp [h, Except.isOk, Except.toBool]
  · unfold create_feature_comment
    cases hf : db.features.filter (fun f => f.id == featureId) with
    | nil => simp
    | cons f _ =>
      cases h : (check_idea_access db f.idea_id userId).1 <;> simp [h, Except.isOk, Except.toBool]

/-! ## C6 — store faults in the access check -/

/-- C6 (counterexample): with the ideas lookup faulting on `dbOwnerOnly`, the
check returns normally — `.ok (false, none)` — instead of surfacing an
`InternalError`, refuting the claim's surfacing half. -/
theorem C6_counterexample : ¬ faultSurfacedAt dbOwnerOnly true false 1 10 := by
  unfold faultSurfacedAt
  decide

/-- C6 (amended): the `try/except` wrapper swallows every lookup fault — the
check always returns normally — and the result is either exactly the
fault-free answer or the deny pair `(false, none)`.  Access is therefore never
granted because of a fault (fail closed), but no `InternalError` is ever
surfaced. -/
theorem C6_fault_swallowed_fail_closed (db : Store) (ideaFault shareFault : Bool)
    (ideaId userId : Nat) :
    (check_idea_access_withFaults db ideaFault shareFault ideaId userId).isOk = true ∧
    (check_idea_access_withFaults db ideaFault shareFault ideaId userId =
        .ok (check_idea_access db ideaId userId) ∨
      check_idea_access_withFaults db ideaFault shareFault ideaId userId =
        .ok (false, none)) := by
  unfold check_idea_access_withFaults check_idea_access
  cases ideaFault with
  | true => exact ⟨rfl, Or.inr rfl⟩
  | false =>
    by_cases h : ideaOwnerRows db ideaId userId ≠ [] 
    · simp [h, Except.isOk, Except.toBool]
    · cases shareFault with
      | true => simp [h, Except.isOk, Except.toBool]
      | false =>
        cases hs : activeShareRows db ideaId userId <;> simp [h, hs, Except.isOk, Except.toBool]

/-! ## C7 — root pagination -/

/-- C7 (confirmed): the page is the slice `[offset : offset + limit]` of the
fully-attached root list, so it has exactly `min limit (rootCount - offset)`
roots (`Nat` subtraction is the claim's `max(0, rootCount - offset)`); an
offset of at least the root count yields the empty page; and the router
consistently rejects every `limit ≤ 0` (`Query(50, ge=1, le=100)`), the
claim's accepted `InvalidArgument` policy. -/
theorem C7_pagination (rows : List Comment) (limit offset k : Nat) :
    (buildForest rows limit offset).length =
      min limit ((rootsOf rows).length - offset) ∧
    buildForest rows limit offset = ((fullForest rows).drop offset).take limit ∧
    buildForest rows limit ((rootsOf rows).length + k) = [] ∧
    limitOk (-(k : Int)) = false := by
  refine ⟨?_, rfl, ?_, ?_⟩
  · simp [buildForest, fullForest]
  · have hlen : (fullForest rows).length = (rootsOf rows).length := by
      simp [fullForest]
    unfold buildForest
    rw [List.drop_eq_nil_of_le (by omega), List.take_nil]
  · have h1 : ¬ ((1 : Int) ≤ -(k : Int)) := by omega
    simp [limitOk, h1]

/-! ## C10 — the `total` response field -/

/-- C10 (confirmed): on every successful read the `total` field equals the
length of the returned page of roots — `min limit (rootCount - offset)` —
and in `dbThread` (three comments, two roots, `limit = 1`) it differs from
both the thread size and the pre-pagination root count. -/
theorem C10_total_is_page_length :
    (∀ (db : Store) (ideaId userId limit offset : Nat),
      (check_idea_access db ideaId userId).1 = true →
      responseTotal (get_idea_comments db ideaId userId limit offset) =
        min limit ((rootsOf (ideaCommentRows db ideaId)).length - offset)) ∧
    responseTotal (get_idea_comments dbThread 1 10 1 0) ≠
      (ideaCommentRows dbThread 1).length ∧
    responseTotal (get_idea_comments dbThread 1 10 1 0) ≠
      (rootsOf (ideaCommentRows dbThread 1)).length := by
  refine ⟨?_, by decide, by decide⟩
  intro db ideaId userId limit offset h
  unfold get_idea_comments responseTotal
  simp [h, buildForest, fullForest]

/-- C10 witness: the page-length equation evaluated on `dbThread`. -/
theorem C10_total_witness :
    responseTotal (get_idea_comments dbThread 1 10 1 0) =
      min 1 ((rootsOf (ideaCommentRows dbThread 1)).length - 0) :=
  C10_total_is_page_length.1 dbThread 1 10 1 0 (by decide)

/-! ## Forest machinery: flattening, node maps, and fuel lemmas -/

mutual

/-- Depth-first flattening of a node: its own comment followed by the comments
of its reply subtrees. -/
def CommentNode.flatten : CommentNode → List Comment
  | .mk c rs => c :: flattenList rs

/-- Depth-first flattening of a list of nodes. -/
def flattenList : List CommentNode → List Comment
  | [] => []
  | t :: ts => t.flatten ++ flattenList ts

end

mutual

/-- Apply a row transformation to every comment of a node, keeping the tree
shape. -/
def mapNode (f : Comment → Comment) : CommentNode → CommentNode
  | .mk c rs => .mk (f c) (mapList f rs)

/-- Apply a row transformation to every comment of a forest, keeping the
shapes. -/
def mapList (f : Comment → Comment) : List CommentNode → List CommentNode
  | [] => []
  | t :: ts => mapNode f t :: mapList f ts

end

mutual

/-- A node together with all its descendant nodes. -/
def allNodes : CommentNode → List CommentNode
  | .mk c rs => .mk c rs :: allNodesList rs

/-- All nodes occurring in a forest. -/
def allNodesList : List CommentNode → List CommentNode
  | [] => []
  | t :: ts => allNodes t ++ allNodesList ts

end

/-- `flattenSeed rows fuel c`: the comments of the subtree rooted at `c`,
computed by fuel recursion — the flattening of `buildNode rows fuel c`
(`flatten_buildNode`), in a form the kernel can evaluate. -/
def flattenSeed (rows : List Comment) : Nat → Comment → List Comment
  | 0, c => [c]
  | fuel + 1, c => c :: (childrenOf rows c.id).flatMap (flattenSeed rows fuel)

/-- The comment multiset of the full built forest, in fuel form
(`forestComments_eq`). -/
def forestComments (rows : List Comment) : List Comment :=
  (rootsOf rows).flatMap (flattenSeed rows rows.length)

/-- How many nodes carrying id `p` the graft argument meets while expanding
the subtree of `c` over `ys` with the given fuel (0 at the fuel horizon,
where nothing is expanded). -/
def occCount (ys : List Comment) (p : Nat) : Nat → Comment → Nat
  | 0, _ => 0
  | fuel + 1, c =>
    (if c.id = p then 1 else 0) + ((childrenOf ys c.id).map (occCount ys p fuel)).sum

/-- How many rows of `rows` were created strictly after `c`; the recursion
measure for the fuel lemmas (a child is always created strictly after its
parent under the thread invariants). -/
def laterCount (rows : List Comment) (c : Comment) : Nat :=
  rows.countP fun d => c.created_at < d.created_at

lemma mem_childrenOf {rows : List Comment} {i : Nat} {d : Comment} :
    d ∈ childrenOf rows i ↔ d ∈ rows ∧ d.parent_comment_id = some i := by
  simp [childrenOf]

lemma mem_rootsOf {rows : List Comment} {d : Comment} :
    d ∈ rootsOf rows ↔ d ∈ rows ∧ d.parent_comment_id = none := by
  simp [rootsOf]

lemma childrenOf_append (ys : List Comment) (e : Comment) (i : Nat) :
    childrenOf (ys ++ [e]) i =
      childrenOf ys i ++ (if e.parent_comment_id == some i then [e] else []) := by
  cases h : e.parent_comment_id == some i <;>
    simp [childrenOf, List.filter_append, List.filter, h]

lemma rootsOf_append (ys : List Comment) (e : Comment) :
    rootsOf (ys ++ [e]) =
      rootsOf ys ++ (if e.parent_comment_id == none then [e] else []) := by
  cases h : e.parent_comment_id == none <;>
    simp [rootsOf, List.filter_append, List.filter, h]

lemma flattenList_eq_flatMap : ∀ ts : List CommentNode,
    flattenList ts = ts.flatMap CommentNode.flatten
  | [] => by simp [flattenList]
  | t :: ts => by
    simp [flattenList, List.flatMap_cons, flattenList_eq_flatMap ts]

lemma flatMap_ext {α β : Type} (l : List α) {f g : α → List β}
    (h : ∀ x ∈ l, f x = g x) : l.flatMap f = l.flatMap g := by
  induction l with
  | nil => rfl
  | cons a t ih =>
    simp only [List.flatMap_cons]
    rw [h a (List.mem_cons_self a t), ih fun x hx => h x (List.mem_cons_of_mem a hx)]

lemma flatten_buildNode (rows : List Comment) :
    ∀ (fuel : Nat) (c : Comment),
      (buildNode rows fuel c).flatten = flattenSeed rows fuel c := by
  intro fuel
  induction fuel with
  | zero =>
    intro c
    simp [buildNode, flattenSeed, CommentNode.flatten, flattenList]
  | succ fuel ih =>
    intro c
    simp only [buildNode, flattenSeed, CommentNode.flatten, flattenList_eq_flatMap]
    rw [List.flatMap_map]
    congr 1
    exact flatMap_ext _ fun d _ => ih d

lemma forestComments_eq (rows : List Comment) :
    flattenList (fullForest rows) = forestComments rows := by
  unfold fullForest forestComments
  rw [flattenList_eq_flatMap, List.flatMap_map]
  exact flatMap_ext _ fun d _ => flatten_buildNode rows rows.length d

lemma mem_flattenSeed_subset (rows : List Comment) :
    ∀ (fuel : Nat) (c : Comment), c ∈ rows →
      ∀ x ∈ flattenSeed rows fuel c, x ∈ rows := by
  intro fuel
  induction fuel with
  | zero =>
    intro c hc x hx
    simp [flattenSeed] at hx
    exact hx ▸ hc
  | succ fuel ih =>
    intro c hc x hx
    simp only [flattenSeed, List.mem_cons, List.mem_flatMap] at hx
    rcases hx with rfl | ⟨d, hd, hx⟩
    · exact hc
    · exact ih d (mem_childrenOf.mp hd).1 x hx

lemma mem_flattenSeed_shape (rows : List Comment) :
    ∀ (fuel : Nat) (c : Comment), c ∈ rows →
      ∀ x ∈ flattenSeed rows fuel c,
        x = c ∨ ∃ d ∈ rows, some d.id = x.parent_comment_id := by
  intro fuel
  induction fuel with
  | zero =>
    intro c _ x hx
    simp [flattenSeed] at hx
    exact Or.inl hx
  | succ fuel ih =>
    intro c hc x hx
    simp only [flattenSeed, List.mem_cons, List.mem_flatMap] at hx
    rcases hx with rfl | ⟨d, hd, hx⟩
    · exact Or.inl rfl
    · rcases mem_childrenOf.mp hd with ⟨hdrows, hdpar⟩
      rcases ih d hdrows x hx with rfl | h
      · exact Or.inr ⟨c, hc, hdpar.symm⟩
      · exact Or.inr h

/-- The thread invariants the store guarantees for one thread's rows (spec §3):
every parent reference resolves within the thread, to a comment created
strictly earlier. -/
def ParentsResolve (rows : List Comment) : Prop :=
  ∀ c ∈ rows, c.parent_comment_id = none ∨
    ∃ c' ∈ rows, some c'.id = c.parent_comment_id ∧ c'.created_at < c.created_at

lemma countP_lt_of_mem {α : Type} {p q : α → Bool} :
    ∀ l : List α, (∀ x ∈ l, p x = true → q x = true) →
      ∀ d ∈ l, q d = true → p d = false → l.countP p < l.countP q := by
  intro l
  induction l with
  | nil => intro _ d hd; simp at hd
  | cons a t ih =>
    intro hpq d hd hqd hpd
    rw [List.countP_cons, List.countP_cons]
    rcases List.mem_cons.mp hd with rfl | hdt
    · have hmono : t.countP p ≤ t.countP q :=
        List.countP_mono_left fun x hx => hpq x (List.mem_cons_of_mem _ hx)
      rw [hpd, hqd]
      simp
      omega
    · have hlt := ih (fun x hx => hpq x (List.mem_cons_of_mem _ hx)) d hdt hqd hpd
      have hite : (if p a = true then 1 else 0) ≤ (if q a = true then 1 else 0) := by
        by_cases hpa : p a = true
        · rw [if_pos hpa, if_pos (hpq a (List.mem_cons_self a t) hpa)]
        · rw [if_neg hpa]
          omega
      omega

lemma id_inj {rows : List Comment} (h1 : (rows.map Comment.id).Nodup)
    {a b : Comment} (ha : a ∈ rows) (hb : b ∈ rows) (hid : a.id = b.id) : a = b :=
  List.inj_on_of_nodup_map h1 ha hb hid

lemma child_created_lt {rows : List Comment} (h1 : (rows.map Comment.id).Nodup)
    (h2 : ParentsResolve rows) {c d : Comment} (hc : c ∈ rows)
    (hd : d ∈ childrenOf rows c.id) : c.created_at < d.created_at := by
  rcases mem_childrenOf.mp hd with ⟨hdrows, hdpar⟩
  rcases h2 d hdrows with hnone | ⟨c', hc', hcid, hlt⟩
  · rw [hdpar] at hnone
    exact absurd hnone (by simp)
  · rw [hdpar] at hcid
    have : c' = c := id_inj h1 hc' hc (Option.some.inj hcid)
    exact this ▸ hlt

lemma child_laterCount_lt {rows : List Comment} (h1 : (rows.map Comment.id).Nodup)
    (h2 : ParentsResolve rows) {c d : Comment} (hc : c ∈ rows)
    (hd : d ∈ childrenOf rows c.id) : laterCount rows d < laterCount rows c := by
  have hcd := child_created_lt h1 h2 hc hd
  have hdrows := (mem_childrenOf.mp hd).1
  apply countP_lt_of_mem rows
  · intro x _ hx
    simp only [decide_eq_true_eq] at hx ⊢
    omega
  · exact hdrows
  · simp only [decide_eq_true_eq]
    exact hcd
  · simp

lemma laterCount_lt_length {rows : List Comment} {c : Comment} (hc : c ∈ rows) :
    laterCount rows c < rows.length := by
  have hsplit := List.length_eq_countP_add_countP
    (fun d => decide (c.created_at < d.created_at)) rows
  have hpos : 0 < rows.countP
      (fun a => decide ¬(decide (c.created_at < a.created_at)) = true) := by
    rw [List.countP_pos_iff]
    exact ⟨c, hc, by simp⟩
  unfold laterCount
  omega

lemma flattenSeed_fuel_irrel {rows : List Comment}
    (h1 : (rows.map Comment.id).Nodup) (h2 : ParentsResolve rows) :
    ∀ (fuel₁ fuel₂ : Nat) (c : Comment), c ∈ rows →
      laterCount rows c < fuel₁ → laterCount rows c < fuel₂ →
      flattenSeed rows fuel₁ c = flattenSeed rows fuel₂ c := by
  intro fuel₁
  induction fuel₁ with
  | zero => intro fuel₂ c _ hlt; omega
  | succ a ih =>
    intro fuel₂ c hc hlt₁ hlt₂
    cases fuel₂ with
    | zero => omega
    | succ b =>
      simp only [flattenSeed]
      congr 1
      apply flatMap_ext
      intro d hd
      have hdc := child_laterCount_lt h1 h2 hc hd
      exact ih b d (mem_childrenOf.mp hd).1 (by omega) (by omega)

lemma flattenSeed_congr {L₁ L₂ : List Comment}
    (h : ∀ i, childrenOf L₁ i = childrenOf L₂ i) :
    ∀ (fuel : Nat) (c : Comment), flattenSeed L₁ fuel c = flattenSeed L₂ fuel c := by
  intro fuel
  induction fuel with
  | zero => intro c; rfl
  | succ fuel ih =>
    intro c
    simp only [flattenSeed, h c.id]
    congr 1
    exact flatMap_ext _ fun d _ => ih d

lemma flattenSeed_no_children {L : List Comment} {e : Comment}
    (h : childrenOf L e.id = []) : ∀ fuel : Nat, flattenSeed L fuel e = [e] := by
  intro fuel
  cases fuel with
  | zero => rfl
  | succ fuel => simp [flattenSeed, h]

lemma sum_map_add {α : Type} (l : List α) (f g : α → Nat) :
    (l.map fun d => f d + g d).sum = (l.map f).sum + (l.map g).sum := by
  induction l with
  | nil => rfl
  | cons a t ih =>
    simp only [List.map_cons, List.sum_cons, ih]
    omega

lemma graft_count {ys : List Comment} {e : Comment} {p : Nat}
    (he : e ∉ ys)
    (hnc : childrenOf (ys ++ [e]) e.id = [])
    (hp : e.parent_comment_id = some p) :
    ∀ (fuel : Nat) (c : Comment), c ∈ ys → ∀ x : Comment,
      (flattenSeed (ys ++ [e]) fuel c).count x =
        (flattenSeed ys fuel c).count x +
          (if x = e then occCount ys p fuel c else 0) := by
  intro fuel
  induction fuel with
  | zero =>
    intro c hc x
    simp [flattenSeed, occCount]
  | succ fuel ih =>
    intro c hc x
    have hce : c ≠ e := fun h => he (h ▸ hc)
    have hA : ((childrenOf ys c.id).flatMap (flattenSeed (ys ++ [e]) fuel)).count x =
        ((childrenOf ys c.id).flatMap (flattenSeed ys fuel)).count x +
          (if x = e then ((childrenOf ys c.id).map (occCount ys p fuel)).sum else 0) := by
      rw [List.count_flatMap, List.count_flatMap]
      have hmap : (childrenOf ys c.id).map
            (List.count x ∘ flattenSeed (ys ++ [e]) fuel) =
          (childrenOf ys c.id).map fun d =>
            (flattenSeed ys fuel d).count x +
              (if x = e then occCount ys p fuel d else 0) :=
        List.map_congr_left fun d hd => ih d (mem_childrenOf.mp hd).1 x
      rw [hmap, sum_map_add]
      by_cases hx : x = e
      · simp only [hx, if_true]
        rfl
      · simp only [hx, if_false]
        rw [List.map_const', List.sum_replicate, smul_eq_mul, Nat.mul_zero, Nat.add_zero]
        rfl
    have hB : ((if e.parent_comment_id == some c.id then [e] else ([] : List Comment)).flatMap
          (flattenSeed (ys ++ [e]) fuel)).count x =
        if x = e then (if c.id = p then 1 else 0) else 0 := by
      by_cases hcp : c.id = p
      · have hcond : (e.parent_comment_id == some c.id) = true := by
          simp [hp, hcp]
        rw [hcond]
        simp only [if_true, List.flatMap_cons, List.flatMap_nil, List.append_nil,
          flattenSeed_no_children hnc fuel, hcp]
        by_cases hx : x = e <;> simp [hx, List.count_singleton]
      · have hcond : (e.parent_comment_id == some c.id) = false := by
          simp [hp]
          exact fun hh => hcp hh.symm
        rw [hcond]
        simp [hcp]
    simp only [flattenSeed, occCount, childrenOf_append ys e c.id, List.flatMap_append,
      List.count_append, List.count_cons, hA, hB]
    by_cases hx : x = e
    · have hcx : (c == x) = false := by
        rw [beq_eq_false_iff_ne]
        exact fun hh => hce (hx ▸ hh)
      simp only [hx, if_true, hcx]
      omega
    · simp only [hx, if_false]
      omega

lemma occCount_eq_countP {ys : List Comment}
    (h1 : (ys.map Comment.id).Nodup) (h2 : ParentsResolve ys) (p : Nat) :
    ∀ (fuel : Nat) (c : Comment), c ∈ ys → laterCount ys c < fuel →
      occCount ys p fuel c =
        (flattenSeed ys fuel c).countP fun d => d.id == p := by
  intro fuel
  induction fuel with
  | zero => intro c _ hlt; omega
  | succ fuel ih =>
    intro c hc hlt
    simp only [occCount, flattenSeed, List.countP_cons, List.countP_flatMap]
    have hmap : (childrenOf ys c.id).map (occCount ys p fuel) =
        (childrenOf ys c.id).map
          (List.countP (fun d => d.id == p) ∘ flattenSeed ys fuel) :=
      List.map_congr_left fun d hd =>
        ih d (mem_childrenOf.mp hd).1
          (by have := child_laterCount_lt h1 h2 hc hd; omega)
    rw [hmap]
    by_cases hcp : c.id = p <;> simp [hcp] <;> omega

lemma forestComments_perm (rows : List Comment)
    (h1 : (rows.map Comment.id).Nodup)
    (hs : rows.Pairwise fun a b => a.created_at ≤ b.created_at)
    (h2 : ParentsResolve rows) :
    (forestComments rows).Perm rows := by
  induction rows using List.reverseRecOn with
  | nil => simp [forestComments, rootsOf]
  | append_singleton ys e ih =>
    -- restrict the hypotheses to the prefix `ys`
    rw [List.map_append] at h1
    rcases List.nodup_append.mp h1 with ⟨h1ys, _, hdisj⟩
    have heid : e.id ∉ ys.map Comment.id := fun hmem => hdisj hmem (by simp)
    have he : e ∉ ys := fun h => heid (List.mem_map_of_mem Comment.id h)
    have hsys : ys.Pairwise fun a b => a.created_at ≤ b.created_at :=
      List.Pairwise.sublist (List.sublist_append_left ys [e]) hs
    have hcatle : ∀ a ∈ ys, a.created_at ≤ e.created_at := by
      rcases List.pairwise_append.mp hs with ⟨_, _, hcross⟩
      exact fun a ha => hcross a ha e (by simp)
    have h2ys : ParentsResolve ys := by
      intro c hc
      rcases h2 c (List.mem_append_left _ hc) with hnone | ⟨c', hc', hcid, hlt⟩
      · exact Or.inl hnone
      · rcases List.mem_append.mp hc' with hc'ys | hc'e
        · exact Or.inr ⟨c', hc'ys, hcid, hlt⟩
        · have hce : c' = e := by simpa using hc'e
          have := hcatle c hc
          rw [hce] at hlt
          omega
    have hncL' : childrenOf (ys ++ [e]) e.id = [] := by
      unfold childrenOf
      rw [List.filter_eq_nil_iff]
      intro d hd
      suffices hne' : d.parent_comment_id ≠ some e.id by simpa
      intro hpar
      rcases h2 d hd with hnone | ⟨c', hc', hcid, hlt⟩
      · rw [hpar] at hnone
        simp at hnone
      · rw [hpar] at hcid
        have hc'id : c'.id = e.id := Option.some.inj hcid
        rcases List.mem_append.mp hc' with hc'ys | hc'e
        · exact heid (hc'id ▸ List.mem_map_of_mem Comment.id hc'ys)
        · have hce : c' = e := by simpa using hc'e
          rw [hce] at hlt
          rcases List.mem_append.mp hd with hdys | hde
          · have := hcatle d hdys
            omega
          · have hdee : d = e := by simpa using hde
            rw [hdee] at hlt
            omega
    cases hepar : e.parent_comment_id with
    | none =>
      have hchsame : ∀ i, childrenOf (ys ++ [e]) i = childrenOf ys i := by
        intro i
        rw [childrenOf_append]
        simp [hepar]
      have hroots : rootsOf (ys ++ [e]) = rootsOf ys ++ [e] := by
        rw [rootsOf_append]
        simp [hepar]
      unfold forestComments
      rw [hroots, List.flatMap_append]
      have heseed : flattenSeed (ys ++ [e]) ((ys ++ [e]).length) e = [e] :=
        flattenSeed_no_children hncL' _
      have hmain : (rootsOf ys).flatMap (flattenSeed (ys ++ [e]) ((ys ++ [e]).length)) =
          forestComments ys := by
        unfold forestComments
        apply flatMap_ext
        intro r hr
        have hrys : r ∈ ys := (mem_rootsOf.mp hr).1
        have hlater := laterCount_lt_length hrys
        rw [flattenSeed_congr hchsame]
        exact flattenSeed_fuel_irrel h1ys h2ys _ _ r hrys
          (by simp only [List.length_append, List.length_cons, List.length_nil]; omega)
          hlater
      rw [hmain, List.flatMap_cons, List.flatMap_nil, heseed, List.append_nil]
      exact (ih h1ys hsys h2ys).append_right [e]
    | some p =>
      have hpInYs : ∃ c' ∈ ys, c'.id = p := by
        rcases h2 e (List.mem_append_right _ (by simp)) with hnone | ⟨c', hc', hcid, hlt⟩
        · rw [hepar] at hnone
          simp at hnone
        · rw [hepar] at hcid
          have hc'id : c'.id = p := Option.some.inj hcid
          rcases List.mem_append.mp hc' with hc'ys | hc'e
          · exact ⟨c', hc'ys, hc'id⟩
          · have hce : c' = e := by simpa using hc'e
            rw [hce] at hlt
            omega
      have hroots : rootsOf (ys ++ [e]) = rootsOf ys := by
        rw [rootsOf_append]
        simp [hepar]
      have hperm := ih h1ys hsys h2ys
      rw [List.perm_iff_count]
      intro x
      have hcountL' : (forestComments (ys ++ [e])).count x =
          (forestComments ys).count x + (if x = e then 1 else 0) := by
        have hpoint : (rootsOf ys).map
            (List.count x ∘ flattenSeed (ys ++ [e]) ((ys ++ [e]).length)) =
            (rootsOf ys).map fun r =>
              (flattenSeed ys ys.length r).count x +
                (if x = e then
                  (flattenSeed ys ys.length r).countP (fun d => d.id == p) else 0) := by
          apply List.map_congr_left
          intro r hr
          have hrys : r ∈ ys := (mem_rootsOf.mp hr).1
          have hlater := laterCount_lt_length hrys
          have hlen : (ys ++ [e]).length = ys.length + 1 := by simp
          have hfuel : flattenSeed ys ((ys ++ [e]).length) r =
              flattenSeed ys ys.length r :=
            flattenSeed_fuel_irrel h1ys h2ys _ _ r hrys (by omega) hlater
          have hg := graft_count he hncL' hepar ((ys ++ [e]).length) r hrys x
          have hocc : occCount ys p ((ys ++ [e]).length) r =
              (flattenSeed ys ys.length r).countP (fun d => d.id == p) := by
            rw [occCount_eq_countP h1ys h2ys p _ r hrys (by omega), hfuel]
          simp only [Function.comp_apply]
          rw [hg, hfuel, hocc]
        have hL' : (forestComments (ys ++ [e])).count x =
            ((rootsOf ys).map fun r =>
              (flattenSeed ys ys.length r).count x +
                (if x = e then
                  (flattenSeed ys ys.length r).countP (fun d => d.id == p)
                 else 0)).sum := by
          rw [forestComments, hroots, List.count_flatMap, hpoint]
        have hys' : (forestComments ys).count x =
            ((rootsOf ys).map fun r =>
              (flattenSeed ys ys.length r).count x).sum := by
          rw [forestComments, List.count_flatMap]
          rfl
        rw [hL', hys', sum_map_add]
        by_cases hx : x = e
        · subst hx
          simp only [eq_self_iff_true, if_true]
          have hsumB : ((rootsOf ys).map fun r =>
              (flattenSeed ys ys.length r).countP (fun d => d.id == p)).sum =
              (forestComments ys).countP (fun d => d.id == p) := by
            rw [forestComments, List.countP_flatMap]
            rfl
          have hone : (forestComments ys).countP (fun d => d.id == p) = 1 := by
            rw [List.Perm.countP_eq _ hperm]
            rcases hpInYs with ⟨c', hc', hcid⟩
            have hcnt : ys.countP (fun d => d.id == p) =
                (ys.map Comment.id).count p := by
              rw [List.count, List.countP_map]
              rfl
            rw [hcnt]
            exact List.count_eq_one_of_mem h1ys
              (hcid ▸ List.mem_map_of_mem Comment.id hc')
          rw [hsumB, hone]
        · simp only [hx, if_false]
          rw [List.map_const', List.sum_replicate, smul_eq_mul, Nat.mul_zero,
            Nat.add_zero]
      rw [hcountL', List.perm_iff_count.mp hperm x, List.count_append]
      by_cases hx : x = e
      · subst hx
        simp [List.count_singleton]
      · have hbeq : (e == x) = false := by
          rw [beq_eq_false_iff_ne]
          exact fun hh => hx hh.symm
        simp [hx, List.count_singleton, hbeq]

/-! ## C3 — forest completeness -/

/-- Claim C3 instantiated at an input list: the built forest contains every
input comment exactly once across root and nested positions. -/
def forestCompleteClaimAt (rows : List Comment) : Prop :=
  ∀ c ∈ rows, (forestComments rows).count c = 1

/-- A comment whose `parent_comment_id` (99) resolves to nothing in its input
list: an orphaned reference. -/
def orphanRow : Comment :=
  { id := 1, user_id := 10, idea_id := some 1, parent_comment_id := some 99,
    content := "x", created_at := 1, updated_at := 1 }

/-- A well-formed two-comment thread: root (id 1) and its reply (id 2). -/
def wfRows : List Comment :=
  [{ id := 1, user_id := 10, idea_id := some 1, content := "hello",
     created_at := 1, updated_at := 1 },
   { id := 2, user_id := 10, idea_id := some 1, parent_comment_id := some 1,
     content := "world", created_at := 2, updated_at := 2 }]

/-- C3 (counterexample): the input consisting of the single orphan comment
produces an *empty* forest — the orphan is dropped, not treated as a root —
so the forest does not contain every input comment exactly once, refuting the
claim. -/
theorem C3_counterexample : ¬ forestCompleteClaimAt [orphanRow] := by
  unfold forestCompleteClaimAt
  decide

/-- C3 (amended): under the store's thread invariants — unique ids, rows
ordered by `created_at`, every parent reference resolving in the list to a
strictly earlier-created comment — the built forest contains every input
comment exactly once across root and nested positions; but a comment whose
parent reference does not resolve within the input list is omitted from the
forest entirely rather than being treated as a root. -/
theorem C3_forest_complete :
    (∀ rows : List Comment,
      (rows.map Comment.id).Nodup →
      rows.Pairwise (fun a b => a.created_at ≤ b.created_at) →
      ParentsResolve rows →
      (flattenList (fullForest rows)).Perm rows) ∧
    (∀ (rows : List Comment) (c : Comment), c ∈ rows →
      c.parent_comment_id ≠ none →
      (∀ d ∈ rows, some d.id ≠ c.parent_comment_id) →
      c ∉ flattenList (fullForest rows)) := by
  constructor
  · intro rows h1 hs h2
    rw [forestComments_eq]
    exact forestComments_perm rows h1 hs h2
  · intro rows c hc hpar hnores hmem
    rw [forestComments_eq] at hmem
    unfold forestComments at hmem
    rcases List.mem_flatMap.mp hmem with ⟨r, hr, hmem'⟩
    have hrys : r ∈ rows := (mem_rootsOf.mp hr).1
    rcases mem_flattenSeed_shape rows _ r hrys c hmem' with rfl | ⟨d, hd, hdid⟩
    · exact hpar (mem_rootsOf.mp hr).2
    · exact hnores d hd hdid

/-- C3 witness: the completeness permutation on the two-comment thread, and
the orphan dropped from the singleton orphan input. -/
theorem C3_forest_complete_witness :
    (flattenList (fullForest wfRows)).Perm wfRows ∧
    orphanRow ∉ flattenList (fullForest [orphanRow]) :=
  ⟨C3_forest_complete.1 wfRows (by decide) (by decide)
      (by unfold ParentsResolve; decide),
   C3_forest_complete.2 [orphanRow] orphanRow (by decide) (by decide) (by decide)⟩

/-! ## C8 — ordering of roots and replies -/

lemma comment_buildNode (rows : List Comment) (fuel : Nat) (c : Comment) :
    (buildNode rows fuel c).comment = c := by
  cases fuel <;> rfl

lemma mem_allNodesList {u : CommentNode} :
    ∀ ts : List CommentNode, u ∈ allNodesList ts ↔ ∃ t ∈ ts, u ∈ allNodes t := by
  intro ts
  induction ts with
  | nil => simp [allNodesList]
  | cons t ts ih =>
    simp only [allNodesList, List.mem_append, ih, List.mem_cons]
    constructor
    · rintro (h | ⟨t', ht', hu⟩)
      · exact ⟨t, Or.inl rfl, h⟩
      · exact ⟨t', Or.inr ht', hu⟩
    · rintro ⟨t', ht' | ht', hu⟩
      · exact Or.inl (ht' ▸ hu)
      · exact Or.inr ⟨t', ht', hu⟩

lemma replies_sorted_buildNode {rows : List Comment}
    (hs : rows.Pairwise fun a b => a.created_at ≤ b.created_at) :
    ∀ (fuel : Nat) (c : Comment), ∀ u ∈ allNodes (buildNode rows fuel c),
      (u.replies.map CommentNode.comment).Pairwise
        (fun a b => a.created_at ≤ b.created_at) := by
  intro fuel
  induction fuel with
  | zero =>
    intro c u hu
    simp [buildNode, allNodes, allNodesList] at hu
    subst hu
    simp [CommentNode.replies]
  | succ fuel ih =>
    intro c u hu
    simp only [buildNode, allNodes, List.mem_cons, mem_allNodesList] at hu
    rcases hu with rfl | ⟨t, ht, hu⟩
    · have hmap : ((childrenOf rows c.id).map (buildNode rows fuel)).map
          CommentNode.comment = childrenOf rows c.id := by
        rw [List.map_map]
        have : (CommentNode.comment ∘ buildNode rows fuel) = fun d : Comment => d := by
          funext d
          exact comment_buildNode rows fuel d
        rw [this, List.map_id']
      simp only [CommentNode.replies, hmap]
      exact List.Pairwise.sublist (List.filter_sublist rows) hs
    · rcases List.mem_map.mp ht with ⟨d, _, rfl⟩
      exact ih d u hu

/-- Claim C8 instantiated: the roots of a returned page must be sorted by
`created_at` ascending with ties broken by `id` ascending. -/
def sortWithTieBreakClaimAt (db : Store) (ideaId userId limit offset : Nat) : Prop :=
  (resultRoots (get_idea_comments db ideaId userId limit offset)).Pairwise
    fun a b => a.created_at < b.created_at ∨
      (a.created_at = b.created_at ∧ a.id < b.id)

/-- Idea 1 of user 10 with two root comments carrying the *same*
`created_at`, stored with id 2 before id 1 — a table state the
order-by-`created_at` clause is free to return in this order, since it fixes
no tie order. -/
def dbTieThread : Store :=
  { ideas := [⟨1, 10⟩],
    comments :=
      [{ id := 2, user_id := 10, idea_id := some 1, content := "b",
         created_at := 5, updated_at := 5 },
       { id := 1, user_id := 10, idea_id := some 1, content := "a",
         created_at := 5, updated_at := 5 }] }

/-- C8 (counterexample): reading `dbTieThread` returns the roots in store
order — id 2 before id 1 with equal `created_at` — because neither the query
(`order("created_at")` only) nor the builder applies any id tie-break; the
claimed deterministic id order on ties is refuted. -/
theorem C8_counterexample : ¬ sortWithTieBreakClaimAt dbTieThread 1 10 50 0 := by
  unfold sortWithTieBreakClaimAt
  decide

/-- C8 (amended): given store rows sorted by `created_at` ascending (which the
query's order clause guarantees, with ties in whatever order the store picks),
the returned page's roots are sorted by `created_at` ascending and the
`replies` list of every node of every returned tree is sorted by `created_at`
ascending — but no id tie-break is applied anywhere: equal `created_at`
neighbours stay in store order. -/
theorem C8_sorted_created_at (rows : List Comment)
    (hs : rows.Pairwise fun a b => a.created_at ≤ b.created_at)
    (limit offset : Nat) :
    ((buildForest rows limit offset).map CommentNode.comment).Pairwise
      (fun a b => a.created_at ≤ b.created_at) ∧
    ∀ t ∈ buildForest rows limit offset, ∀ u ∈ allNodes t,
      (u.replies.map CommentNode.comment).Pairwise
        (fun a b => a.created_at ≤ b.created_at) := by
  have hsub : (buildForest rows limit offset).Sublist (fullForest rows) :=
    (List.take_sublist _ _).trans (List.drop_sublist _ _)
  constructor
  · have hfull : (fullForest rows).map CommentNode.comment = rootsOf rows := by
      unfold fullForest
      rw [List.map_map]
      have : (CommentNode.comment ∘ buildNode rows rows.length) =
          fun d : Comment => d := by
        funext d
        exact comment_buildNode rows rows.length d
      rw [this, List.map_id']
    have hroots : (rootsOf rows).Pairwise
        (fun a b => a.created_at ≤ b.created_at) :=
      List.Pairwise.sublist (List.filter_sublist rows) hs
    exact List.Pairwise.sublist (hsub.map _) (hfull ▸ hroots)
  · intro t ht u hu
    have ht' : t ∈ fullForest rows := List.Sublist.mem ht hsub
    rcases List.mem_map.mp ht' with ⟨r, _, rfl⟩
    exact replies_sorted_buildNode hs rows.length r u hu

/-- C8 witness: the page-ordering conclusions on the two-comment thread. -/
theorem C8_sorted_created_at_witness :
    ((buildForest wfRows 50 0).map CommentNode.comment).Pairwise
      (fun a b => a.created_at ≤ b.created_at) :=
  (C8_sorted_created_at wfRows (by decide) 50 0).1

/-! ## C9 — soft-delete effects -/

lemma mapList_eq_map (f : Comment → Comment) :
    ∀ ts : List CommentNode, mapList f ts = ts.map (mapNode f) := by
  intro ts
  induction ts with
  | nil => simp [mapList]
  | cons t ts ih => simp [mapList, ih]

lemma childrenOf_map {f : Comment → Comment}
    (hpar : ∀ c, (f c).parent_comment_id = c.parent_comment_id)
    (rows : List Comment) (i : Nat) :
    childrenOf (rows.map f) i = (childrenOf rows i).map f := by
  unfold childrenOf
  rw [List.filter_map]
  congr 1
  apply List.filter_congr
  intro c _
  simp [Function.comp, hpar c]

lemma rootsOf_map {f : Comment → Comment}
    (hpar : ∀ c, (f c).parent_comment_id = c.parent_comment_id)
    (rows : List Comment) :
    rootsOf (rows.map f) = (rootsOf rows).map f := by
  unfold rootsOf
  rw [List.filter_map]
  congr 1
  apply List.filter_congr
  intro c _
  simp [Function.comp, hpar c]

lemma buildNode_map {f : Comment → Comment}
    (hid : ∀ c, (f c).id = c.id)
    (hpar : ∀ c, (f c).parent_comment_id = c.parent_comment_id)
    (rows : List Comment) :
    ∀ (fuel : Nat) (c : Comment),
      buildNode (rows.map f) fuel (f c) = mapNode f (buildNode rows fuel c) := by
  intro fuel
  induction fuel with
  | zero => intro c; simp [buildNode, mapNode, mapList]
  | succ fuel ih =>
    intro c
    simp only [buildNode, mapNode, hid c, childrenOf_map hpar, List.map_map,
      mapList_eq_map]
    congr 1
    apply List.map_congr_left
    intro d _
    exact ih d

lemma fullForest_map {f : Comment → Comment}
    (hid : ∀ c, (f c).id = c.id)
    (hpar : ∀ c, (f c).parent_comment_id = c.parent_comment_id)
    (rows : List Comment) :
    fullForest (rows.map f) = mapList f (fullForest rows) := by
  unfold fullForest
  rw [List.length_map, rootsOf_map hpar, List.map_map, mapList_eq_map,
    List.map_map]
  apply List.map_congr_left
  intro r _
  exact buildNode_map hid hpar rows rows.length r

lemma buildForest_map {f : Comment → Comment}
    (hid : ∀ c, (f c).id = c.id)
    (hpar : ∀ c, (f c).parent_comment_id = c.parent_comment_id)
    (rows : List Comment) (limit offset : Nat) :
    buildForest (rows.map f) limit offset =
      mapList f (buildForest rows limit offset) := by
  unfold buildForest
  rw [fullForest_map hid hpar, mapList_eq_map, mapList_eq_map,
    ← List.map_drop, ← List.map_take]

lemma insertByCat_map {f : Comment → Comment}
    (hcat : ∀ c, (f c).created_at = c.created_at) (c : Comment) :
    ∀ l : List Comment, insertByCat (f c) (l.map f) = (insertByCat c l).map f := by
  intro l
  induction l with
  | nil => simp [insertByCat]
  | cons d ds ih =>
    simp only [List.map_cons, insertByCat, hcat, ih]
    by_cases h : d.created_at < c.created_at <;> simp [h]

lemma orderByCreatedAt_map {f : Comment → Comment}
    (hcat : ∀ c, (f c).created_at = c.created_at) :
    ∀ l : List Comment,
      orderByCreatedAt (l.map f) = (orderByCreatedAt l).map f := by
  intro l
  induction l with
  | nil => rfl
  | cons c cs ih => simp only [List.map_cons, orderByCreatedAt, ih, insertByCat_map hcat]

/-- The store state a soft-delete leaves behind (unchanged on failure); used
to state the claim pointwise. -/
def afterDelete (db : Store) (commentId userId : Nat) : Store :=
  match delete_comment db commentId userId with
  | .ok db' => db'
  | .error _ => db

/-- Claim C9 instantiated: after the author's soft-delete, the comment row is
retained with the sentinel content AND its `updated_at` was bumped (strictly
increased). -/
def softDeleteClaimAt (db : Store) (commentId userId : Nat) : Prop :=
  (∃ c ∈ (afterDelete db commentId userId).comments,
    c.id = commentId ∧ c.content = "[deleted]") ∧
  ∀ c ∈ db.comments, c.id = commentId →
    ∀ c' ∈ (afterDelete db commentId userId).comments, c'.id = commentId →
      c.updated_at < c'.updated_at

/-- C9 (counterexample): author 10 soft-deletes comment 3 of `dbThread`.  The
row is retained with sentinel content, but the update dict sent to the store
carries only `content` (`comment.py` line 255), so `updated_at` keeps its old
value 3 — it is not bumped, refuting the claim. -/
theorem C9_counterexample : ¬ softDeleteClaimAt dbThread 3 10 := by
  unfold softDeleteClaimAt afterDelete
  decide

/-- C9 (amended): a soft-delete by a matching author rewrites exactly the
`content` column of the rows with the target id to `"[deleted]"`: the row is
retained; `id`, `created_at`, `parent_comment_id` — and also `updated_at`,
which the claim said would be bumped — are unchanged; and every subsequent
read returns the identical forest with only that content replacement applied
to every node (the comment stays nested under its original parent). -/
theorem C9_soft_delete_effects (db : Store) (commentId userId : Nat)
    (h : authorRows db commentId userId ≠ []) :
    delete_comment db commentId userId =
      .ok { db with comments :=
        db.comments.map (setContentRow commentId "[deleted]") } ∧
    (∀ c ∈ db.comments,
      (setContentRow commentId "[deleted]" c).id = c.id ∧
      (setContentRow commentId "[deleted]" c).created_at = c.created_at ∧
      (setContentRow commentId "[deleted]" c).parent_comment_id =
        c.parent_comment_id ∧
      (setContentRow commentId "[deleted]" c).updated_at = c.updated_at ∧
      (c.id = commentId →
        (setContentRow commentId "[deleted]" c).content = "[deleted]")) ∧
    (∀ ideaId uid limit offset : Nat,
      get_idea_comments
          { db with comments :=
            db.comments.map (setContentRow commentId "[deleted]") }
          ideaId uid limit offset =
        (get_idea_comments db ideaId uid limit offset).map
          (mapList (setContentRow commentId "[deleted]"))) := by
  have hid : ∀ c, (setContentRow commentId "[deleted]" c).id = c.id := by
    intro c
    unfold setContentRow
    by_cases hc : (c.id == commentId) = true <;> simp [hc]
  have hpar : ∀ c, (setContentRow commentId "[deleted]" c).parent_comment_id =
      c.parent_comment_id := by
    intro c
    unfold setContentRow
    by_cases hc : (c.id == commentId) = true <;> simp [hc]
  have hcat : ∀ c, (setContentRow commentId "[deleted]" c).created_at =
      c.created_at := by
    intro c
    unfold setContentRow
    by_cases hc : (c.id == commentId) = true <;> simp [hc]
  have hupd : ∀ c, (setContentRow commentId "[deleted]" c).updated_at =
      c.updated_at := by
    intro c
    unfold setContentRow
    by_cases hc : (c.id == commentId) = true <;> simp [hc]
  have hidea : ∀ c, (setContentRow commentId "[deleted]" c).idea_id = c.idea_id := by
    intro c
    unfold setContentRow
    by_cases hc : (c.id == commentId) = true <;> simp [hc]
  refine ⟨?_, ?_, ?_⟩
  · unfold delete_comment
    cases hh : authorRows db commentId userId with
    | nil => exact absurd hh h
    | cons a t => rfl
  · intro c _
    refine ⟨hid c, hcat c, hpar c, hupd c, ?_⟩
    intro hc
    unfold setContentRow
    simp [hc]
  · intro ideaId uid limit offset
    have hacc : check_idea_access
        { db with comments :=
          db.comments.map (setContentRow commentId "[deleted]") } ideaId uid =
        check_idea_access db ideaId uid := rfl
    have hrows : ideaCommentRows
        { db with comments :=
          db.comments.map (setContentRow commentId "[deleted]") } ideaId =
        (ideaCommentRows db ideaId).map (setContentRow commentId "[deleted]") := by
      unfold ideaCommentRows
      rw [List.filter_map]
      have hpred : List.filter ((fun c : Comment => c.idea_id == some ideaId) ∘
          setContentRow commentId "[deleted]") db.comments =
          List.filter (fun c : Comment => c.idea_id == some ideaId) db.comments := by
        apply List.filter_congr
        intro c _
        simp [Function.comp, hidea c]
      rw [hpred, orderByCreatedAt_map hcat]
    unfold get_idea_comments
    rw [hacc]
    cases hb : (check_idea_access db ideaId uid).1 with
    | false => simp [hb, Except.map]
    | true => simp [hb, Except.map, hrows, buildForest_map hid hpar]

/-- C9 witness: the soft-delete equation on `dbThread` (author 10, comment 3),
whose author filter matches. -/
theorem C9_soft_delete_effects_witness :
    delete_comment dbThread 3 10 =
      .ok { dbThread with comments :=
        dbThread.comments.map (setContentRow 3 "[deleted]") } :=
  (C9_soft_delete_effects dbThread 3 10 (by decide)).1
